import Mathlib

/-!
# Verification of the combo-box interaction-state engine

A shallow embedding of `packages/@react-stately/combobox/src/useComboBoxState.ts`:
the node tree and structure-preserving `filter`, the exact-match key resolution
(`computeKeyFromValue`) and the input/selection synchronizer (`onInputChange`,
`setSelectedKey`), the construction-time mismatch check, the default locale-aware
filter predicate (`defaultFilterFn`), the inline-suggestion matcher
(`suggestedValue`) and the trigger gate (`open` / `isOpen`).

JavaScript strings are modelled as Lean `String` / `List Char`; machine maps
(`collection.keyMap`) as association lists in insertion order; the
`Intl.Collator` as an abstract comparison function; callback invocations
(`onSelectionChange`, `onFilter`) as explicit event lists returned by the
transition functions; a JavaScript `throw` as `Except.error`.
-/

namespace ComboBox

/-- A collection entry: an `item` carries a key and display text, a `sect`
(`type === 'section'` in the source) additionally carries its child nodes.
`Node.sect k t cs` models a section node whose `childNodes` is `cs`;
`hasChildNodes` of the source is `cs ≠ []` (the collection builder keeps the
flag consistent with the child list). -/
inductive Node where
  | item (key : Nat) (textValue : String) : Node
  | sect (key : Nat) (textValue : String) (childNodes : List Node) : Node

/-- `node.textValue` of the source. -/
def Node.textValue : Node → String
  | .item _ t => t
  | .sect _ t _ => t

/-- `node.key` of the source. -/
def Node.key : Node → Nat
  | .item k _ => k
  | .sect k _ _ => k

/-- `node.type === 'section'` of the source. -/
def Node.isSection : Node → Bool
  | .item _ _ => false
  | .sect _ _ _ => true

/-- `filter` of the source (lines 31–47): for a section with children,
recursively filter the children and keep a shallow copy of the section exactly
when the filtered child list is non-empty; a section without children falls
through both branches and is dropped; a non-section node is kept unchanged
exactly when the predicate holds of it. -/
def filter (filterFn : Node → Bool) : List Node → List Node
  | [] => []
  | .item k t :: rest =>
      if filterFn (.item k t) then .item k t :: filter filterFn rest
      else filter filterFn rest
  | .sect k t cs :: rest =>
      if cs.isEmpty then filter filterFn rest
      else
        let filtered := filter filterFn cs
        if 0 < filtered.length then .sect k t filtered :: filter filterFn rest
        else filter filterFn rest
termination_by l => sizeOf l
decreasing_by all_goals (simp_wf; try omega)

/-- The item nodes of a tree in flattened visit order. -/
def items : List Node → List Node
  | [] => []
  | .item k t :: rest => .item k t :: items rest
  | .sect _ _ cs :: rest => items cs ++ items rest
termination_by l => sizeOf l
decreasing_by all_goals (simp_wf; try omega)

/-- All keys of a tree in flattened visit order (sections included). -/
def keys : List Node → List Nat
  | [] => []
  | .item k _ :: rest => k :: keys rest
  | .sect k _ cs :: rest => k :: (keys cs ++ keys rest)
termination_by l => sizeOf l
decreasing_by all_goals (simp_wf; try omega)

/-- All nodes of a tree in flattened visit order (sections kept with their
child lists, so a section's identity includes the children it carries). -/
def flatten : List Node → List Node
  | [] => []
  | .item k t :: rest => .item k t :: flatten rest
  | .sect k t cs :: rest => .sect k t cs :: (flatten cs ++ flatten rest)
termination_by l => sizeOf l
decreasing_by all_goals (simp_wf; try omega)

/-- Every section of the tree, at any depth, has a non-empty child list. -/
def sectionsNonempty : List Node → Bool
  | [] => true
  | .item _ _ :: rest => sectionsNonempty rest
  | .sect _ _ cs :: rest => !cs.isEmpty && sectionsNonempty cs && sectionsNonempty rest
termination_by l => sizeOf l
decreasing_by all_goals (simp_wf; try omega)

/-- Every section of the tree, at any depth, has at least one item descendant. -/
def sectionsHaveItem : List Node → Bool
  | [] => true
  | .item _ _ :: rest => sectionsHaveItem rest
  | .sect _ _ cs :: rest => !(items cs).isEmpty && sectionsHaveItem cs && sectionsHaveItem rest
termination_by l => sizeOf l
decreasing_by all_goals (simp_wf; try omega)

/-- `computeKeyFromValue` (lines 60–73): walk the keyMap in order and return
the first non-section node whose `textValue` is exactly (`===`) the given
value; `undefined` (`none`) when no such node exists. -/
def computeKeyFromValue (value : String) (keyMap : List (Nat × Node)) : Option Nat :=
  match keyMap with
  | [] => none
  | (itemKey, node) :: rest =>
      if node.isSection = false ∧ node.textValue = value then some itemKey
      else computeKeyFromValue value rest

/-- `collection.getItem(key)`: the node stored under the key, `undefined`
(`none`) when the key is absent or itself `undefined`. -/
def getItem (keyMap : List (Nat × Node)) (key : Option Nat) : Option Node :=
  match key with
  | none => none
  | some k => (keyMap.find? (fun kn => kn.1 == k)).map Prod.snd

/-- `item ? item.textValue : ''` (lines 114–115 and 84–85). -/
def itemTextOrEmpty (keyMap : List (Nat × Node)) (key : Option Nat) : String :=
  match getItem keyMap key with
  | some n => n.textValue
  | none => ""

/-- `onInputChange` (lines 91–102): recompute the selected key from the new
text by exact lookup in the unfiltered collection and emit
`onSelectionChange(newSelectedKey)` exactly when it differs from the current
selected key. The returned list holds the emitted payloads. -/
def onInputChange (keyMap : List (Nat × Node)) (selectedKey : Option Nat)
    (value : String) : List (Option Nat) :=
  let newSelectedKey := computeKeyFromValue value keyMap
  if newSelectedKey ≠ selectedKey then [newSelectedKey] else []

/-- Modelled from the spec: `setInputValue` is the setter of
`useControlledState` (package `@react-stately/utils`, not among the repository
sources), which stores the new value and invokes its change callback — here
`onInputChange`, line 106 — exactly when the new value differs from the current
one; the source's own comment (lines 118–119) records that an unchanged text
does not re-trigger the callback. Returns the resulting input value and the
selection-change events emitted through `onInputChange`. -/
def setInputValue (keyMap : List (Nat × Node)) (inputValue : String)
    (selectedKey : Option Nat) (value : String) : String × List (Option Nat) :=
  if value ≠ inputValue then (value, onInputChange keyMap selectedKey value)
  else (inputValue, [])

/-- `setSelectedKey` (lines 113–126): look the key up in the unfiltered
collection; when the item exists and its text is non-empty (`itemText &&`),
write the text through `setInputValue`; then, when that text equals the
current input text but the key differs from the current selected key, emit
`onSelectionChange(key)` manually. Returns the resulting input value and the
emitted selection-change payloads in order. -/
def setSelectedKey (keyMap : List (Nat × Node)) (inputValue : String)
    (selectedKey : Option Nat) (key : Option Nat) : String × List (Option Nat) :=
  let itemText := itemTextOrEmpty keyMap key
  let r :=
    if itemText ≠ "" then setInputValue keyMap inputValue selectedKey itemText
    else (inputValue, [])
  let manual := if itemText = inputValue ∧ selectedKey ≠ key then [key] else []
  (r.1, r.2 ++ manual)

/-- The construction-time check (lines 83–89): when both `props.selectedKey`
and `props.inputValue` are supplied and truthy (a JavaScript `&&` of the two:
a `0` key or an empty input string is falsy and skips the check), compare the
selected item's text — empty when the item is missing — with the supplied
input value and throw on mismatch. -/
def initCheck (keyMap : List (Nat × Node)) (propsSelectedKey : Option Nat)
    (propsInputValue : Option String) : Except String Unit :=
  match propsSelectedKey, propsInputValue with
  | some k, some v =>
      if k ≠ 0 ∧ v ≠ "" then
        if itemTextOrEmpty keyMap (some k) ≠ v then
          Except.error "Mismatch between selected item and inputValue!"
        else Except.ok ()
      else Except.ok ()
  | _, _ => Except.ok ()

/-- An `Intl.Collator`'s `compare`, abstracted to a function on character
lists; `0` means the collator considers the two strings equal. -/
def Collator := List Char → List Char → Int

/-- JavaScript's `String.prototype.replace(' ', '')` with a string pattern:
only the FIRST occurrence of the space character is removed. -/
def removeFirstSpace : List Char → List Char
  | [] => []
  | c :: cs => if c = ' ' then cs else c :: removeFirstSpace cs

/-- `value.toLowerCase().replace(' ', '')` (lines 138 and 142). -/
def jsNormalize (s : String) : List Char := removeFirstSpace (s.data.map Char.toLower)

/-- The scan loop of `defaultFilterFn` (lines 146–152): for
`scan = 0, 1, ...` while `scan + sliceLen <= lowercaseNode.length` and no
match yet, compare the query against `lowercaseNode.slice(scan, scan +
sliceLen)`. The index loop is represented as structural recursion over the
remaining suffix `t = lowercaseNode.drop scan`, whose initial slice
`t.take q.length` is exactly the source's slice at position `scan`. -/
def scanLoop (cmp : Collator) (q : List Char) : List Char → Bool
  | [] =>
      if q.length ≤ ([] : List Char).length then
        if cmp q (([] : List Char).take q.length) = 0 then true else false
      else false
  | c :: t' =>
      if q.length ≤ (c :: t').length then
        if cmp q ((c :: t').take q.length) = 0 then true else scanLoop cmp q t'
      else false

/-- `defaultFilterFn` (lines 140–155): normalize the query and the node text
by lower-casing and removing the first space, then scan every contiguous
substring of the normalized text of the normalized query's length for
collator equality. -/
def defaultFilterFn (cmp : Collator) (inputValue : String) (node : Node) : Bool :=
  scanLoop cmp (jsNormalize inputValue) (jsNormalize node.textValue)

/-- The predicate as the specification words it: normalize both sides by
lower-casing and removing the literal space character (read as removing every
occurrence), then match if any contiguous substring of the normalized text of
length equal to the normalized query's length compares equal to the query
under the collator. -/
def specNormalize (s : String) : List Char := (s.data.map Char.toLower).filter (fun c => !(c == ' '))

/-- The spec-worded default filter predicate, to compare with
`defaultFilterFn`. -/
def specDefaultFilterFn (cmp : Collator) (inputValue : String) (node : Node) : Bool :=
  let q := specNormalize inputValue
  let t := specNormalize node.textValue
  (List.range (t.length + 1)).any
    (fun i => decide (i + q.length ≤ t.length) && decide (cmp q ((t.drop i).take q.length) = 0))

/-- A collator that deems two strings equal exactly when they are identical. -/
def cmpEq : Collator := fun a b => if a = b then 0 else 1

/-- Modelled from the spec: the open/close trigger primitive
(`useMenuTriggerState`, package `@react-stately/menu`, not among the
repository sources) is a boolean open state with `open()` setting it,
`setOpen(b)` writing `b` and `toggle()` flipping it. -/
structure MenuTriggerState where
  isOpen : Bool

/-- The primitive's `open()`. -/
def menuOpen (_st : MenuTriggerState) : MenuTriggerState := { isOpen := true }

/-- The primitive's `setOpen(b)`. -/
def menuSetOpen (_st : MenuTriggerState) (b : Bool) : MenuTriggerState := { isOpen := b }

/-- The primitive's `toggle()`. -/
def menuToggle (st : MenuTriggerState) : MenuTriggerState := { isOpen := !st.isOpen }

/-- `open` (lines 184–188): forwarded to `triggerState.open` only when the
filtered collection's size is greater than `0`; otherwise a silent no-op. -/
def cbOpen (filteredSize : Nat) (st : MenuTriggerState) : MenuTriggerState :=
  if 0 < filteredSize then menuOpen st else st

/-- `setOpen` of the returned state (lines 227–242): the object spread
`{...triggerState, ...}` overrides only `open` and `isOpen`, so `setOpen` is
the primitive's own, forwarded without any gating. -/
def cbSetOpen (_filteredSize : Nat) (st : MenuTriggerState) (b : Bool) : MenuTriggerState :=
  menuSetOpen st b

/-- `toggle` of the returned state (lines 227–242): likewise the primitive's
own, forwarded without any gating. -/
def cbToggle (_filteredSize : Nat) (st : MenuTriggerState) : MenuTriggerState :=
  menuToggle st

/-- `isOpen` of the returned state (line 238):
`triggerState.isOpen && isFocused && filteredCollection.size > 0`. -/
def cbIsOpen (st : MenuTriggerState) (isFocused : Bool) (filteredSize : Nat) : Bool :=
  st.isOpen && isFocused && decide (0 < filteredSize)

/-- The claim's gated `setOpen`, as the specification words it: `setOpen(true)`
gated like `open` by a non-empty filtered collection, `setOpen(false)` always
forwarded. -/
def specSetOpen (filteredSize : Nat) (st : MenuTriggerState) (b : Bool) : MenuTriggerState :=
  if b then (if 0 < filteredSize then menuSetOpen st true else st)
  else menuSetOpen st false

/-- The claim's gated `toggle`, as the specification words it: forwarded only
when not already open and the filtered collection is non-empty. -/
def specToggle (filteredSize : Nat) (st : MenuTriggerState) : MenuTriggerState :=
  if !st.isOpen && decide (0 < filteredSize) then menuToggle st else st

/-- The `onFilter` effect (lines 157–164): after a render, fire
`onFilter(inputValue)` exactly when the input value differs from the last
seen value, then record the value. Returns the emitted payloads and the
updated `lastValue` ref. -/
def onFilterEffect (lastValue inputValue : String) : List String × String :=
  if lastValue ≠ inputValue then ([inputValue], inputValue) else ([], inputValue)

/-- A call to the engine's `open` with its observable notifications: the body
of `open` (lines 184–188) contains no `onFilter` call — it only forwards the
gated `triggerState.open` — and the `onFilter` effect that runs afterwards
sees the input value untouched by the call. The result pairs the new trigger
state and `lastValue` ref with the list of `onFilter` payloads emitted. -/
def cbOpenEvents (filteredSize : Nat) (st : MenuTriggerState)
    (lastValue inputValue : String) : (MenuTriggerState × String) × List String :=
  let st' := cbOpen filteredSize st
  let eff := onFilterEffect lastValue inputValue
  ((st', eff.2), eff.1)

/-- `filteredCollection.getItem(focusedKey)?.textValue`: the filtered
collection is represented, for the suggestion matcher, as its item
`(key, textValue)` pairs in list order (Modelled from the spec: the
collection's iteration order is the filtered items in list order). -/
def textOfKey (fc : List (Nat × String)) (k : Nat) : Option String :=
  (fc.find? (fun kt => kt.1 == k)).map Prod.snd

/-- `filteredTextValues` (line 192): `[...filteredCollection].map(item =>
item.textValue)`. -/
def filteredTextValues (fc : List (Nat × String)) : List String :=
  fc.map Prod.snd

/-- The `for` loop of `suggestedValue` (lines 212–222): the first truthy
(non-empty) text value whose slice of the input's length compares equal to
the input under the collator. -/
def findFirstMatch (cmp : Collator) (inputValue : String) (sliceLen : Nat) :
    List String → Option String
  | [] => none
  | value :: rest =>
      if value ≠ "" ∧ cmp inputValue.data (value.data.take sliceLen) = 0 then some value
      else findFirstMatch cmp inputValue sliceLen rest

/-- `suggestedValue` (lines 193–225): nothing when the input is empty or
custom values are allowed; otherwise the focused item's text when the key
passes the JavaScript truthiness guard `if (focusedKey)` of line 201 (a `0`
key is falsy and skips the branch, like an absent key) and its slice of the
input's length is truthy and compares equal to the input under the collator;
otherwise the first matching text value in list order; otherwise nothing. -/
def suggestedValue (cmp : Collator) (inputValue : String) (allowsCustomValue : Bool)
    (focusedKey : Option Nat) (fc : List (Nat × String)) : Option String :=
  if 0 < inputValue.length ∧ allowsCustomValue = false then
    let sliceLen := inputValue.length
    let focusedMatch : Option String :=
      match focusedKey with
      | some fk =>
          if fk ≠ 0 then
            match textOfKey fc fk with
            | some focusedText =>
                let valueSlice := focusedText.data.take sliceLen
                if valueSlice ≠ [] ∧ cmp inputValue.data valueSlice = 0 then some focusedText
                else none
            | none => none
          else none
      | none => none
    match focusedMatch with
    | some m => some m
    | none => findFirstMatch cmp inputValue sliceLen (filteredTextValues fc)
  else none

theorem filter_nil (p : Node → Bool) : filter p [] = [] := by simp [filter]

theorem filter_item_pos (p : Node → Bool) (k : Nat) (t : String) (rest : List Node)
    (hp : p (Node.item k t) = true) :
    filter p (Node.item k t :: rest) = Node.item k t :: filter p rest := by
  simp [filter, hp]

theorem filter_item_neg (p : Node → Bool) (k : Nat) (t : String) (rest : List Node)
    (hp : ¬p (Node.item k t) = true) :
    filter p (Node.item k t :: rest) = filter p rest := by
  simp [filter, hp]

theorem filter_sect_empty (p : Node → Bool) (k : Nat) (t : String) (cs rest : List Node)
    (hcs : cs.isEmpty = true) :
    filter p (Node.sect k t cs :: rest) = filter p rest := by
  simp [filter, hcs]

theorem filter_sect_keep (p : Node → Bool) (k : Nat) (t : String) (cs rest : List Node)
    (hcs : ¬cs.isEmpty = true) (hf : 0 < (filter p cs).length) :
    filter p (Node.sect k t cs :: rest) = Node.sect k t (filter p cs) :: filter p rest := by
  simp [filter, hcs, hf]

theorem filter_sect_drop (p : Node → Bool) (k : Nat) (t : String) (cs rest : List Node)
    (hcs : ¬cs.isEmpty = true) (hf : ¬0 < (filter p cs).length) :
    filter p (Node.sect k t cs :: rest) = filter p rest := by
  simp [filter, hcs, hf]

theorem items_nil : items [] = [] := by simp [items]

theorem items_item (k : Nat) (t : String) (rest : List Node) :
    items (Node.item k t :: rest) = Node.item k t :: items rest := by simp [items]

theorem items_sect (k : Nat) (t : String) (cs rest : List Node) :
    items (Node.sect k t cs :: rest) = items cs ++ items rest := by simp [items]

theorem flatten_nil : flatten [] = [] := by simp [flatten]

theorem flatten_item (k : Nat) (t : String) (rest : List Node) :
    flatten (Node.item k t :: rest) = Node.item k t :: flatten rest := by simp [flatten]

theorem flatten_sect (k : Nat) (t : String) (cs rest : List Node) :
    flatten (Node.sect k t cs :: rest) = Node.sect k t cs :: (flatten cs ++ flatten rest) := by
  simp [flatten]

theorem keys_nil : keys [] = [] := by simp [keys]

theorem keys_item (k : Nat) (t : String) (rest : List Node) :
    keys (Node.item k t :: rest) = k :: keys rest := by simp [keys]

theorem keys_sect (k : Nat) (t : String) (cs rest : List Node) :
    keys (Node.sect k t cs :: rest) = k :: (keys cs ++ keys rest) := by simp [keys]

theorem sectionsHaveItem_item (k : Nat) (t : String) (rest : List Node) :
    sectionsHaveItem (Node.item k t :: rest) = sectionsHaveItem rest := by
  simp [sectionsHaveItem]

theorem sectionsHaveItem_sect (k : Nat) (t : String) (cs rest : List Node) :
    sectionsHaveItem (Node.sect k t cs :: rest) =
      (!(items cs).isEmpty && sectionsHaveItem cs && sectionsHaveItem rest) := by
  simp [sectionsHaveItem]

theorem filter_items_sat (p : Node → Bool) (ns : List Node) :
    ∀ n ∈ items (filter p ns), p n = true := by
  induction ns using filter.induct p with
  | case1 => simp [filter_nil, items_nil]
  | case2 k t rest hp ih =>
      intro n hn
      rw [filter_item_pos p k t rest hp, items_item] at hn
      rcases List.mem_cons.mp hn with h | h
      · subst h; exact hp
      · exact ih n h
  | case3 k t rest hp ih =>
      intro n hn
      rw [filter_item_neg p k t rest hp] at hn
      exact ih n hn
  | case4 k t cs rest hcs ih =>
      intro n hn
      rw [filter_sect_empty p k t cs rest hcs] at hn
      exact ih n hn
  | case5 k t cs rest hcs f hf ihc ih =>
      intro n hn
      rw [filter_sect_keep p k t cs rest hcs hf, items_sect] at hn
      rcases List.mem_append.mp hn with h | h
      · exact ihc n h
      · exact ih n h
  | case6 k t cs rest hcs f hf ihc ih =>
      intro n hn
      rw [filter_sect_drop p k t cs rest hcs hf] at hn
      exact ih n hn

theorem filter_sectionsNonempty (p : Node → Bool) (ns : List Node) :
    sectionsNonempty (filter p ns) = true := by
  induction ns using filter.induct p with
  | case1 => simp [filter_nil, sectionsNonempty]
  | case2 k t rest hp ih =>
      rw [filter_item_pos p k t rest hp]
      simpa [sectionsNonempty] using ih
  | case3 k t rest hp ih => rw [filter_item_neg p k t rest hp]; exact ih
  | case4 k t cs rest hcs ih => rw [filter_sect_empty p k t cs rest hcs]; exact ih
  | case5 k t cs rest hcs f hf ihc ih =>
      rw [filter_sect_keep p k t cs rest hcs hf]
      have hf' : 0 < (filter p cs).length := hf
      have hne : (filter p cs).isEmpty = false := by
        cases h : filter p cs with
        | nil => rw [h] at hf'; simp at hf'
        | cons a l => simp [List.isEmpty]
      simp [sectionsNonempty, hne, ihc, ih]
  | case6 k t cs rest hcs f hf ihc ih => rw [filter_sect_drop p k t cs rest hcs hf]; exact ih

theorem filter_items_sublist (p : Node → Bool) (ns : List Node) :
    (items (filter p ns)).Sublist (items ns) := by
  induction ns using filter.induct p with
  | case1 => simp [filter_nil]
  | case2 k t rest hp ih =>
      rw [filter_item_pos p k t rest hp, items_item, items_item]
      exact ih.cons₂ _
  | case3 k t rest hp ih =>
      rw [filter_item_neg p k t rest hp, items_item]
      exact ih.cons _
  | case4 k t cs rest hcs ih =>
      rw [filter_sect_empty p k t cs rest hcs, items_sect]
      exact ih.trans (List.sublist_append_right _ _)
  | case5 k t cs rest hcs f hf ihc ih =>
      rw [filter_sect_keep p k t cs rest hcs hf, items_sect, items_sect]
      exact ihc.append ih
  | case6 k t cs rest hcs f hf ihc ih =>
      rw [filter_sect_drop p k t cs rest hcs hf, items_sect]
      exact ih.trans (List.sublist_append_right _ _)

theorem filter_sect_mem (p : Node → Bool) (ns : List Node) :
    ∀ k t cs', Node.sect k t cs' ∈ flatten (filter p ns) →
      ∃ cs, Node.sect k t cs ∈ flatten ns ∧ cs' = filter p cs := by
  induction ns using filter.induct p with
  | case1 => simp [filter_nil, flatten_nil]
  | case2 k t rest hp ih =>
      intro k' t' cs' hmem
      rw [filter_item_pos p k t rest hp, flatten_item] at hmem
      rcases List.mem_cons.mp hmem with h | h
      · exact absurd h (by simp)
      · rcases ih k' t' cs' h with ⟨cs, hcs, heq⟩
        exact ⟨cs, by rw [flatten_item]; exact List.mem_cons_of_mem _ hcs, heq⟩
  | case3 k t rest hp ih =>
      intro k' t' cs' hmem
      rw [filter_item_neg p k t rest hp] at hmem
      rcases ih k' t' cs' hmem with ⟨cs, hcs, hex⟩
      exact ⟨cs, by rw [flatten_item]; exact List.mem_cons_of_mem _ hcs, hex⟩
  | case4 k t cs rest hcs ih =>
      intro k' t' cs' hmem
      rw [filter_sect_empty p k t cs rest hcs] at hmem
      rcases ih k' t' cs' hmem with ⟨cs₀, hcs₀, hex⟩
      refine ⟨cs₀, ?_, hex⟩
      rw [flatten_sect]
      exact List.mem_cons_of_mem _ (List.mem_append_right _ hcs₀)
  | case5 k t cs rest hcs f hf ihc ih =>
      intro k' t' cs' hmem
      rw [filter_sect_keep p k t cs rest hcs hf, flatten_sect] at hmem
      rcases List.mem_cons.mp hmem with h | h
      · injection h with h1 h2 h3
        subst h1; subst h2; subst h3
        refine ⟨cs, ?_, rfl⟩
        rw [flatten_sect]
        exact List.mem_cons_self _ _
      · rcases List.mem_append.mp h with h' | h'
        · rcases ihc k' t' cs' h' with ⟨cs₀, hcs₀, hex⟩
          refine ⟨cs₀, ?_, hex⟩
          rw [flatten_sect]
          exact List.mem_cons_of_mem _ (List.mem_append_left _ hcs₀)
        · rcases ih k' t' cs' h' with ⟨cs₀, hcs₀, hex⟩
          refine ⟨cs₀, ?_, hex⟩
          rw [flatten_sect]
          exact List.mem_cons_of_mem _ (List.mem_append_right _ hcs₀)
  | case6 k t cs rest hcs f hf ihc ih =>
      intro k' t' cs' hmem
      rw [filter_sect_drop p k t cs rest hcs hf] at hmem
      rcases ih k' t' cs' hmem with ⟨cs₀, hcs₀, hex⟩
      refine ⟨cs₀, ?_, hex⟩
      rw [flatten_sect]
      exact List.mem_cons_of_mem _ (List.mem_append_right _ hcs₀)

theorem filter_true_items (ns : List Node) :
    items (filter (fun _ => true) ns) = items ns := by
  induction ns using filter.induct (fun _ => true) with
  | case1 => simp [filter_nil]
  | case2 k t rest hp ih =>
      rw [filter_item_pos _ k t rest hp, items_item, items_item, ih]
  | case3 k t rest hp ih => simp at hp
  | case4 k t cs rest hcs ih =>
      rw [filter_sect_empty _ k t cs rest hcs, items_sect, ih]
      have : cs = [] := by simpa [List.isEmpty_iff] using hcs
      simp [this, items_nil]
  | case5 k t cs rest hcs f hf ihc ih =>
      rw [filter_sect_keep _ k t cs rest hcs hf, items_sect, items_sect, ihc, ih]
  | case6 k t cs rest hcs f hf ihc ih =>
      have hf' : ¬0 < (filter (fun _ => true) cs).length := hf
      rw [filter_sect_drop _ k t cs rest hcs hf, items_sect]
      have hnil : filter (fun _ => true) cs = [] := by
        cases h : filter (fun _ => true) cs with
        | nil => rfl
        | cons a l => rw [h] at hf'; simp at hf'
      have : items cs = [] := by rw [← ihc, hnil, items_nil]
      rw [ih, this]
      simp

theorem filter_true_keys (ns : List Node) (h : sectionsHaveItem ns = true) :
    keys (filter (fun _ => true) ns) = keys ns := by
  induction ns using filter.induct (fun _ => true) with
  | case1 => simp [filter_nil]
  | case2 k t rest hp ih =>
      rw [sectionsHaveItem_item] at h
      rw [filter_item_pos _ k t rest hp, keys_item, keys_item, ih h]
  | case3 k t rest hp ih => simp at hp
  | case4 k t cs rest hcs ih =>
      rw [sectionsHaveItem_sect] at h
      have : cs = [] := by simpa [List.isEmpty_iff] using hcs
      subst this
      simp [items_nil] at h
  | case5 k t cs rest hcs f hf ihc ih =>
      rw [sectionsHaveItem_sect] at h
      rcases (Bool.and_eq_true _ _).mp h with ⟨h12, h3⟩
      rcases (Bool.and_eq_true _ _).mp h12 with ⟨_, h2⟩
      rw [filter_sect_keep _ k t cs rest hcs hf, keys_sect, keys_sect, ihc h2, ih h3]
  | case6 k t cs rest hcs f hf ihc ih =>
      rw [sectionsHaveItem_sect] at h
      rcases (Bool.and_eq_true _ _).mp h with ⟨h12, _⟩
      rcases (Bool.and_eq_true _ _).mp h12 with ⟨h1, _⟩
      have hf' : ¬0 < (filter (fun _ => true) cs).length := hf
      have hnil : filter (fun _ => true) cs = [] := by
        cases hh : filter (fun _ => true) cs with
        | nil => rfl
        | cons a l => rw [hh] at hf'; simp at hf'
      have hit : items cs = [] := by rw [← filter_true_items cs, hnil, items_nil]
      rw [hit] at h1
      simp at h1

theorem string_eq_empty_of_data_nil (s : String) (h : s.data = []) : s = "" := by
  cases s with
  | mk d => simp at h; subst h; rfl

theorem string_length_pos_of_ne_empty (s : String) (h : s ≠ "") : 0 < s.length := by
  cases s with
  | mk d =>
      cases d with
      | nil => exact absurd rfl h
      | cons c cs => simp [String.length]

theorem scanLoop_iff (cmp : Collator) (q : List Char) (t : List Char) :
    scanLoop cmp q t = true ↔
      ∃ i, i + q.length ≤ t.length ∧ cmp q ((t.drop i).take q.length) = 0 := by
  induction t with
  | nil =>
      rw [scanLoop]
      constructor
      · intro h
        by_cases hq : q.length ≤ ([] : List Char).length
        · rw [if_pos hq] at h
          refine ⟨0, by simp only [List.length_nil] at hq ⊢; omega, ?_⟩
          by_cases hc : cmp q (([] : List Char).take q.length) = 0
          · simpa using hc
          · rw [if_neg hc] at h; exact absurd h (by simp)
        · rw [if_neg hq] at h; exact absurd h (by simp)
      · rintro ⟨i, hi, hc⟩
        have hq : q.length = 0 := by simp only [List.length_nil] at hi; omega
        have hi0 : (0 : Nat) + q.length ≤ 0 := by omega
        rw [if_pos (by simpa using hi0)]
        have : (([] : List Char).drop i) = ([] : List Char) := by simp
        rw [this] at hc
        rw [if_pos hc]
  | cons c t' ih =>
      rw [scanLoop]
      by_cases hq : q.length ≤ (c :: t').length
      · rw [if_pos hq]
        by_cases hc : cmp q ((c :: t').take q.length) = 0
        · rw [if_pos hc]
          constructor
          · intro _
            exact ⟨0, by simpa using hq, by simpa using hc⟩
          · intro _; rfl
        · rw [if_neg hc]
          rw [ih]
          constructor
          · rintro ⟨i, hi, hmatch⟩
            exact ⟨i + 1, by simp only [List.length_cons]; omega, by simpa using hmatch⟩
          · rintro ⟨i, hi, hmatch⟩
            cases i with
            | zero => exact absurd (by simpa using hmatch) hc
            | succ i' =>
                refine ⟨i', by simp at hi; omega, ?_⟩
                simpa using hmatch
      · rw [if_neg hq]
        constructor
        · intro h; exact absurd h (by simp)
        · rintro ⟨i, hi, _⟩
          exact absurd hq (by push_neg; omega)

theorem findFirstMatch_eq_find? (cmp : Collator) (inputValue : String) (sliceLen : Nat)
    (vs : List String) (hcmp : ∀ s, cmp s [] = 0 → s = []) (hv : inputValue ≠ "") :
    findFirstMatch cmp inputValue sliceLen vs =
      vs.find? (fun v => decide (cmp inputValue.data (v.data.take sliceLen) = 0)) := by
  induction vs with
  | nil => rfl
  | cons value rest ih =>
      by_cases h : cmp inputValue.data (value.data.take sliceLen) = 0
      · have hne : value ≠ "" := by
          intro hempty
          subst hempty
          have : inputValue.data = [] := hcmp _ (by simpa using h)
          exact hv (string_eq_empty_of_data_nil _ this)
        rw [findFirstMatch, if_pos ⟨hne, h⟩]
        rw [List.find?_cons_of_pos _ (by simpa using h)]
      · have : ¬(value ≠ "" ∧ cmp inputValue.data (value.data.take sliceLen) = 0) := by
          intro hh; exact h hh.2
        rw [findFirstMatch, if_neg this]
        rw [List.find?_cons_of_neg _ (by simpa using h)]
        exact ih

/-- C1: a user-driven input change resolves the new selected key by exact,
case-sensitive text equality over the non-section nodes of the unfiltered
collection — a resolved key always points at such an exact match, the key is
`none` exactly when no non-section node's text equals the new value — and a
selection-change notification is emitted if and only if the resolved key
differs from the current selected key, carrying the resolved key. -/
theorem C1_input_change_resolution (keyMap : List (Nat × Node))
    (selectedKey : Option Nat) (value : String) :
    (∀ k, computeKeyFromValue value keyMap = some k →
      ∃ n, (k, n) ∈ keyMap ∧ n.isSection = false ∧ n.textValue = value) ∧
    (computeKeyFromValue value keyMap = none ↔
      ∀ kn ∈ keyMap, kn.2.isSection = false → kn.2.textValue ≠ value) ∧
    (onInputChange keyMap selectedKey value ≠ [] ↔
      computeKeyFromValue value keyMap ≠ selectedKey) ∧
    (computeKeyFromValue value keyMap ≠ selectedKey →
      onInputChange keyMap selectedKey value = [computeKeyFromValue value keyMap]) := by
  refine ⟨?_, ?_, ?_, ?_⟩
  · intro k hk
    induction keyMap with
    | nil => simp [computeKeyFromValue] at hk
    | cons kn rest ih =>
        rcases kn with ⟨k', n'⟩
        by_cases h : n'.isSection = false ∧ n'.textValue = value
        · rw [computeKeyFromValue, if_pos h] at hk
          exact ⟨n', by simp [← Option.some_inj.mp hk], h.1, h.2⟩
        · rw [computeKeyFromValue, if_neg h] at hk
          rcases ih hk with ⟨n, hmem, hsec, htext⟩
          exact ⟨n, List.mem_cons_of_mem _ hmem, hsec, htext⟩
  · induction keyMap with
    | nil => simp [computeKeyFromValue]
    | cons kn rest ih =>
        rcases kn with ⟨k', n'⟩
        by_cases h : n'.isSection = false ∧ n'.textValue = value
        · rw [computeKeyFromValue, if_pos h]
          constructor
          · intro hk; exact absurd hk (by simp)
          · intro hall
            exact absurd h.2 (hall (k', n') (List.mem_cons_self _ _) h.1)
        · rw [computeKeyFromValue, if_neg h]
          rw [ih]
          constructor
          · intro hall kn hmem hsec
            rcases List.mem_cons.mp hmem with hh | hh
            · subst hh
              intro hv
              exact h ⟨hsec, hv⟩
            · exact hall kn hh hsec
          · intro hall kn hmem hsec
            exact hall kn (List.mem_cons_of_mem _ hmem) hsec
  · unfold onInputChange
    by_cases h : computeKeyFromValue value keyMap ≠ selectedKey
    · simp [h]
    · simp [h]
  · intro h
    unfold onInputChange
    simp [h]

/-- C2: `setSelectedKey(k)` for an item present in the unfiltered collection
with non-empty text sets the input value to that item's text, and when that
text already equals the current input text but `k` differs from the current
selected key, the selection-change notification for `k` is still emitted
(and is the only one emitted). -/
theorem C2_selection_sets_input (keyMap : List (Nat × Node)) (inputValue : String)
    (selectedKey : Option Nat) (k : Nat) (n : Node)
    (hfound : getItem keyMap (some k) = some n) (htext : n.textValue ≠ "") :
    (setSelectedKey keyMap inputValue selectedKey (some k)).1 = n.textValue ∧
    (n.textValue = inputValue → selectedKey ≠ some k →
      (setSelectedKey keyMap inputValue selectedKey (some k)).2 = [some k]) := by
  have hit : itemTextOrEmpty keyMap (some k) = n.textValue := by
    simp [itemTextOrEmpty, hfound]
  constructor
  · by_cases heq : n.textValue = inputValue
    · simp [setSelectedKey, hit, htext, setInputValue, heq]
    · simp [setSelectedKey, hit, htext, setInputValue, heq]
  · intro heq hkey
    simp [setSelectedKey, hit, htext, setInputValue, heq, hkey]

/-- C2 witness: selecting key `1` (item text `"Apple"`) while the input
already reads `"Apple"` and nothing is recorded as selected keeps the text
and still emits `selectionChange(1)`. -/
theorem C2_selection_sets_input_witness :
    (setSelectedKey [(1, Node.item 1 "Apple")] "Apple" none (some 1)).1 = "Apple" ∧
    (setSelectedKey [(1, Node.item 1 "Apple")] "Apple" none (some 1)).2 = [some 1] :=
  ⟨(C2_selection_sets_input [(1, Node.item 1 "Apple")] "Apple" none 1
      (Node.item 1 "Apple") rfl (by decide)).1,
   (C2_selection_sets_input [(1, Node.item 1 "Apple")] "Apple" none 1
      (Node.item 1 "Apple") rfl (by decide)).2 rfl (by decide)⟩

/-- C3 counterexample: both `selectedKey` and `inputValue` are supplied, the
selected item's text `"Apple"` differs from the supplied input value `""`,
yet construction succeeds — the JavaScript truthiness guard
`props.selectedKey && props.inputValue` skips the mismatch check for an empty
input string, so the claim's unconditional "fails loudly" is false. -/
theorem C3_counterexample :
    initCheck [(1, Node.item 1 "Apple")] (some 1) (some "") = Except.ok () ∧
    itemTextOrEmpty [(1, Node.item 1 "Apple")] (some 1) ≠ "" := by
  exact ⟨rfl, by decide⟩

/-- C3 (amended): when both are supplied with truthy values — a non-zero key
and a non-empty input string — and the selected item's text (empty when the
item is missing) differs from the supplied input value, construction throws
the mismatch error; a falsy supplied value (empty input string, zero key)
skips the check. -/
theorem C3_mismatch_throws (keyMap : List (Nat × Node)) (k : Nat) (v : String)
    (hk : k ≠ 0) (hv : v ≠ "") (hne : itemTextOrEmpty keyMap (some k) ≠ v) :
    initCheck keyMap (some k) (some v) =
      Except.error "Mismatch between selected item and inputValue!" := by
  simp [initCheck, hk, hv, hne]

/-- C3 witness: key `1` (item text `"Apple"`) with input value `"Banana"`
throws at construction. -/
theorem C3_mismatch_throws_witness :
    initCheck [(1, Node.item 1 "Apple")] (some 1) (some "Banana") =
      Except.error "Mismatch between selected item and inputValue!" :=
  C3_mismatch_throws [(1, Node.item 1 "Apple")] 1 "Banana" (by decide) (by decide)
    (by decide)

/-- C4: for every node tree and predicate over item nodes, the filter
operation returns a tree in which every item node satisfies the predicate,
every retained section has a non-empty filtered child list, retained item
nodes are emitted unchanged (the filtered item sequence is a sublist of the
source item sequence), and retained sections are shallow copies of source
sections carrying the filtered children; the source tree, being a pure value,
is not mutated. -/
theorem C4_filter_preserves_structure (p : Node → Bool) (ns : List Node) :
    (∀ n ∈ items (filter p ns), p n = true) ∧
    sectionsNonempty (filter p ns) = true ∧
    (items (filter p ns)).Sublist (items ns) ∧
    (∀ k t cs', Node.sect k t cs' ∈ flatten (filter p ns) →
      ∃ cs, Node.sect k t cs ∈ flatten ns ∧ cs' = filter p cs) :=
  ⟨filter_items_sat p ns, filter_sectionsNonempty p ns, filter_items_sublist p ns,
    filter_sect_mem p ns⟩

/-- C5 counterexample: with a collator that equates identical strings, the
query `"bc"` and an item with text `"a b c"`: the source predicate removes
only the first space (`"ab c"`) and finds no matching substring, while the
claim's normalization (every space removed, `"abc"`) finds the substring
`"bc"` — so the claimed characterization of the predicate is false. -/
theorem C5_counterexample :
    defaultFilterFn cmpEq "bc" (Node.item 0 "a b c") = false ∧
    specDefaultFilterFn cmpEq "bc" (Node.item 0 "a b c") = true := by
  constructor <;> rfl

/-- C5 (amended): the default filter predicate matches the item if and only
if, after normalizing both the query and the item's text by lower-casing and
removing the FIRST occurrence of the literal space character, some contiguous
substring of the normalized item text of length equal to the normalized query
length compares equal to the normalized query under the collator; and for any
reflexive collator the empty query matches every item. -/
theorem C5_default_filter_characterization (cmp : Collator) (v : String) (n : Node) :
    (defaultFilterFn cmp v n = true ↔
      ∃ i, i + (jsNormalize v).length ≤ (jsNormalize n.textValue).length ∧
        cmp (jsNormalize v) (((jsNormalize n.textValue).drop i).take (jsNormalize v).length) = 0) ∧
    ((∀ s, cmp s s = 0) → v = "" → defaultFilterFn cmp v n = true) := by
  constructor
  · exact scanLoop_iff cmp (jsNormalize v) (jsNormalize n.textValue)
  · intro hrefl hv
    subst hv
    unfold defaultFilterFn
    rw [scanLoop_iff]
    refine ⟨0, by simp [jsNormalize, removeFirstSpace], ?_⟩
    have : jsNormalize "" = [] := rfl
    rw [this]
    simpa using hrefl []

/-- C6 counterexample: with an empty filtered collection and a closed
underlying state, the engine's `setOpen(true)` and `toggle()` both flip the
underlying state open — they are forwarded ungated — while the claim's gated
versions would leave it closed. -/
theorem C6_counterexample :
    (cbSetOpen 0 { isOpen := false } true).isOpen = true ∧
    (specSetOpen 0 { isOpen := false } true).isOpen = false ∧
    (cbToggle 0 { isOpen := false }).isOpen = true ∧
    (specToggle 0 { isOpen := false }).isOpen = false :=
  ⟨rfl, rfl, rfl, rfl⟩

/-- C6 (amended): `open()` is forwarded to the underlying trigger state only
when the filtered collection is non-empty and is dropped as a silent no-op
otherwise; `setOpen` (with either argument) and `toggle` are forwarded to the
underlying state unconditionally, ungated (the returned object spread
overrides only `open` and `isOpen`); and the exposed `isOpen` is true only
when the underlying state is open, the input has focus, and the filtered
collection is non-empty. -/
theorem C6_trigger_gate (filteredSize : Nat) (st : MenuTriggerState) (b f : Bool) :
    (filteredSize = 0 → cbOpen filteredSize st = st) ∧
    (0 < filteredSize → cbOpen filteredSize st = menuOpen st) ∧
    cbSetOpen filteredSize st b = menuSetOpen st b ∧
    cbToggle filteredSize st = menuToggle st ∧
    (cbIsOpen st f filteredSize = true →
      st.isOpen = true ∧ f = true ∧ 0 < filteredSize) := by
  refine ⟨?_, ?_, rfl, rfl, ?_⟩
  · intro h; simp [cbOpen, h]
  · intro h; simp [cbOpen, h]
  · intro h
    simp only [cbIsOpen, Bool.and_eq_true, decide_eq_true_eq] at h
    exact ⟨h.1.1, h.1.2, h.2⟩

/-- C7 counterexample: with an identity collator, input `"App"`, filtered
items `"Applesauce"` (key 5) then `"Apple"` (key 0), and focused key `0`: the
focused key exists and the focused item's prefix `"App"` compares equal to
the input, so the claim demands the suggestion `"Apple"` — but the source's
truthiness guard `if (focusedKey)` (line 201) treats the key `0` as falsy,
skips the focused-priority branch, and the in-order scan returns
`"Applesauce"`. -/
theorem C7_counterexample :
    suggestedValue cmpEq "App" false (some 0) [(5, "Applesauce"), (0, "Apple")] =
      some "Applesauce" ∧
    textOfKey [(5, "Applesauce"), (0, "Apple")] 0 = some "Apple" ∧
    cmpEq "App".data ("Apple".data.take "App".length) = 0 ∧
    some "Applesauce" ≠ (some "Apple" : Option String) :=
  ⟨rfl, rfl, by decide, by decide⟩

/-- C7 (amended): the suggestion is `none` when the input is empty or custom
values are allowed; otherwise, when a TRUTHY focused key exists (the guard
`if (focusedKey)` is JavaScript truthiness, so a `0` key is skipped like an
absent one) and the focused item's text prefix of the input's length compares
equal to the input under the collator, the focused item's text is the
suggestion; otherwise the suggestion is the first text value in list order
whose prefix of that length matches (`none` when no item matches, by
`find?`). The collator hypothesis — only the empty string compares equal to
the empty string — holds of any real `Intl.Collator`. -/
theorem C7_suggestion (cmp : Collator) (inputValue : String) (allowsCustomValue : Bool)
    (focusedKey : Option Nat) (fc : List (Nat × String))
    (hcmp : ∀ s, cmp s [] = 0 → s = []) :
    (inputValue = "" ∨ allowsCustomValue = true →
      suggestedValue cmp inputValue allowsCustomValue focusedKey fc = none) ∧
    (∀ fk t, inputValue ≠ "" → allowsCustomValue = false → focusedKey = some fk →
      fk ≠ 0 → textOfKey fc fk = some t →
      cmp inputValue.data (t.data.take inputValue.length) = 0 →
      suggestedValue cmp inputValue allowsCustomValue focusedKey fc = some t) ∧
    (inputValue ≠ "" → allowsCustomValue = false →
      (∀ fk t, focusedKey = some fk → fk ≠ 0 → textOfKey fc fk = some t →
        cmp inputValue.data (t.data.take inputValue.length) ≠ 0) →
      suggestedValue cmp inputValue allowsCustomValue focusedKey fc =
        (filteredTextValues fc).find?
          (fun v => decide (cmp inputValue.data (v.data.take inputValue.length) = 0))) := by
  refine ⟨?_, ?_, ?_⟩
  · intro h
    rcases h with h | h
    · simp [suggestedValue, h]
    · simp [suggestedValue, h]
  · intro fk t hv hc hfk hfk0 ht hmatch
    have hlen : 0 < inputValue.length := string_length_pos_of_ne_empty _ hv
    have hslice : t.data.take inputValue.length ≠ [] := by
      intro hempty
      rw [hempty] at hmatch
      exact hv (string_eq_empty_of_data_nil _ (hcmp _ hmatch))
    subst hfk
    simp [suggestedValue, hlen, hc, hfk0, ht, hslice, hmatch]
  · intro hv hc hnofocus
    have hlen : 0 < inputValue.length := string_length_pos_of_ne_empty _ hv
    have hfind := findFirstMatch_eq_find? cmp inputValue inputValue.length
      (filteredTextValues fc) hcmp hv
    cases focusedKey with
    | none => simp [suggestedValue, hlen, hc, hfind]
    | some fk =>
        by_cases hfk0 : fk = 0
        · subst hfk0
          simp [suggestedValue, hlen, hc, hfind]
        · cases ht : textOfKey fc fk with
          | none => simp [suggestedValue, hlen, hc, hfk0, ht, hfind]
          | some t =>
              have : cmp inputValue.data (t.data.take inputValue.length) ≠ 0 :=
                hnofocus fk t rfl hfk0 ht
              simp [suggestedValue, hlen, hc, hfk0, ht, this, hfind]

/-- C7 witness: the spec's suggestion-priority example — input `"It"`, items
`"Item One"` (focused, truthy key `1`) and `"ItemOne"`, an identity
collator — suggests the focused `"Item One"`. -/
theorem C7_suggestion_witness :
    suggestedValue cmpEq "It" false (some 1) [(1, "Item One"), (2, "ItemOne")] =
      some "Item One" :=
  (C7_suggestion cmpEq "It" false (some 1) [(1, "Item One"), (2, "ItemOne")]
      (fun s h => by by_contra hs; simp [cmpEq, hs] at h)).2.1
    1 "Item One" (by decide) rfl rfl (by decide) rfl (by decide)

/-- C8 counterexample: with the input reading `"Apple"` and key `99` absent
from the collection, `setSelectedKey(99)` leaves the input value `"Apple"` —
it is not resolved to empty text as the claim states (the empty resolved item
text suppresses the input write entirely). -/
theorem C8_counterexample :
    getItem [(1, Node.item 1 "Apple")] (some 99) = none ∧
    (setSelectedKey [(1, Node.item 1 "Apple")] "Apple" (some 1) (some 99)).1 = "Apple" ∧
    (setSelectedKey [(1, Node.item 1 "Apple")] "Apple" (some 1) (some 99)).1 ≠ "" := by
  refine ⟨rfl, rfl, by decide⟩

/-- C8 (amended): `setSelectedKey` with a key absent from the unfiltered
collection does not throw (the transition is a total function) and leaves the
input value unchanged: the missing item's text resolves to the empty string,
which suppresses the input-value write, so the stale key is treated as
nothing selected rather than as fatal. -/
theorem C8_missing_key_keeps_input (keyMap : List (Nat × Node))
    (inputValue : String) (selectedKey : Option Nat) (key : Option Nat)
    (h : getItem keyMap key = none) :
    (setSelectedKey keyMap inputValue selectedKey key).1 = inputValue := by
  have hit : itemTextOrEmpty keyMap key = "" := by simp [itemTextOrEmpty, h]
  simp [setSelectedKey, hit]

/-- C8 witness: the amended theorem at the concrete stale key `99`. -/
theorem C8_missing_key_keeps_input_witness :
    (setSelectedKey [(1, Node.item 1 "Apple")] "Apple" (some 1) (some 99)).1 = "Apple" :=
  C8_missing_key_keeps_input [(1, Node.item 1 "Apple")] "Apple" (some 1) (some 99) rfl

/-- C9 counterexample: in steady state (the last seen value equals the current
input value `"App"`, as the effect guarantees after the previous render), a
call to `open()` with a non-empty filtered collection forwards the open but
emits NO filter-changed notification — the claim says every `open()` call
triggers one. -/
theorem C9_counterexample :
    (cbOpenEvents 2 { isOpen := false } "App" "App").2 = [] ∧
    ((cbOpenEvents 2 { isOpen := false } "App" "App").1.1).isOpen = true :=
  ⟨rfl, rfl⟩

/-- C9 (amended): calling `open()` triggers no filter-changed notification of
its own: in steady state (last seen value equal to the current input value)
an `open()` call emits nothing, whatever the gating outcome; the notification
is emitted by the input-change effect exactly when the input value differs
from the last seen value, and it carries the current input value (a defined
string), not an undefined "recompute" signal. -/
theorem C9_open_no_filter_notification (filteredSize : Nat) (st : MenuTriggerState)
    (v lastValue inputValue : String) :
    (cbOpenEvents filteredSize st v v).2 = [] ∧
    (lastValue ≠ inputValue → (onFilterEffect lastValue inputValue).1 = [inputValue]) ∧
    (lastValue = inputValue → (onFilterEffect lastValue inputValue).1 = []) := by
  refine ⟨?_, ?_, ?_⟩
  · simp [cbOpenEvents, onFilterEffect]
  · intro h; simp [onFilterEffect, h]
  · intro h; simp [onFilterEffect, h]

/-- C10 counterexample: a tree consisting of one childless section refutes the
claim — filtering with the always-true predicate drops the empty section, so the
key sequence `[]` of the result differs from the source's `[0]`. -/
theorem C10_counterexample :
    keys (filter (fun _ => true) [Node.sect 0 "s" []]) ≠ keys [Node.sect 0 "s" []] := by
  simp [filter, keys]

/-- C10 (amended): filtering with an always-true predicate always preserves the
item sequence exactly; it preserves the full key set and order provided every
section of the source tree has at least one item descendant (sections with no
item descendants, e.g. childless sections, are dropped by the filter). -/
theorem C10_filter_true_identity (ns : List Node) (h : sectionsHaveItem ns = true) :
    keys (filter (fun _ => true) ns) = keys ns ∧
    items (filter (fun _ => true) ns) = items ns :=
  ⟨filter_true_keys ns h, filter_true_items ns⟩

/-- C10 witness: the amended theorem applied to a concrete two-node tree with a
populated section. -/
theorem C10_filter_true_identity_witness :
    keys (filter (fun _ => true) [Node.sect 0 "s" [Node.item 1 "a"], Node.item 2 "b"]) =
      keys [Node.sect 0 "s" [Node.item 1 "a"], Node.item 2 "b"] ∧
    items (filter (fun _ => true) [Node.sect 0 "s" [Node.item 1 "a"], Node.item 2 "b"]) =
      items [Node.sect 0 "s" [Node.item 1 "a"], Node.item 2 "b"] :=
  C10_filter_true_identity _ (by simp [sectionsHaveItem, items])

end ComboBox
